import Mathlib

/-!
Shallow embedding of `process_stores.py`: a sitemap-driven store scraper.
Pure data-processing functions are translated directly; the surrounding
I/O (file reading, HTTP, HTML parsing into a tree) is modelled by taking
the result of each external query as input.  Printed diagnostics are
returned as explicit lists of strings.
-/

/-- Python string truthiness for an optional string: `bool(s)` is true iff
`s` is not `None` and not the empty string. -/
def truthy (s? : Option String) : Bool :=
  match s? with
  | some s => s ≠ ""
  | none => false

/-- Python `str.strip()`: remove whitespace characters from both ends
(the two languages' whitespace sets agree on the ASCII whitespace the
pages contain). -/
def pyStrip (s : String) : String :=
  ⟨((s.data.dropWhile Char.isWhitespace).reverse.dropWhile Char.isWhitespace).reverse⟩

/-- CPython compares strings lexicographically by code point; this is
that comparison, as `<=` on the underlying character lists. -/
def lexLe : List Char → List Char → Bool
  | [], _ => true
  | _ :: _, [] => false
  | a :: as, b :: bs => if a = b then lexLe as bs else decide (a.toNat < b.toNat)

/-- Python `a <= b` on strings. -/
def strLe (a b : String) : Prop :=
  lexLe a.data b.data = true

instance : DecidableRel strLe := fun a b =>
  inferInstanceAs (Decidable (lexLe a.data b.data = true))

/-! ## URL Extractor (`parse_sitemaps`, lines 23-40)

A sitemap file is modelled by what `ET.parse` + the `url`/`loc` lookups
yield: either a parse error, a missing file, or a parsed document giving,
for each `url` element found, the text of its `loc` child (`none` when the
`loc` child is missing or its text is `None`).  The Python `set` is
modelled as a duplicate-free list built by insert-if-absent (`urls.add`);
list order stands for the arbitrary iteration order of `list(urls)`. -/

inductive SitemapDoc where
  | malformed
  | missing
  | doc (locTexts : List (Option String))
deriving DecidableEq, Repr

/-- `urls.add u` on a Python set: no-op when already present. -/
def setInsert (urls : List String) (u : String) : List String :=
  if u ∈ urls then urls else urls ++ [u]

/-- The body of the inner loop of `parse_sitemaps`: for one `url`
element, `if loc_element is not None and loc_element.text:
urls.add(loc_element.text.strip())`.  Note the truthiness test is on the
raw text, before stripping. -/
def locStep (acc : List String) (t? : Option String) : List String :=
  match t? with
  | some t => if t ≠ "" then setInsert acc (pyStrip t) else acc
  | none => acc

/-- The per-file body of `parse_sitemaps`. -/
def addFileURLs (urls : List String) (d : SitemapDoc) : List String :=
  match d with
  | .malformed => urls
  | .missing => urls
  | .doc locTexts => locTexts.foldl locStep urls

/-- `parse_sitemaps` (lines 23-40), modulo the printed per-file error
messages, which do not affect the returned collection. -/
def parse_sitemaps (files : List SitemapDoc) : List String :=
  files.foldl addFileURLs []

/-- Specification-side predicate: document `d` contributes the URL `u`,
i.e. `d` parsed and some `url` element has a `loc` child whose text `t`
is non-empty (before trimming) with `pyStrip t = u`. -/
def locMatches (u : String) (t? : Option String) : Bool :=
  match t? with
  | some t => t ≠ "" && pyStrip t == u
  | none => false

def locYields (d : SitemapDoc) (u : String) : Bool :=
  match d with
  | .doc locTexts => locTexts.any (locMatches u)
  | _ => false

/-- Specification-side predicate: some file of `files` contributes `u`. -/
def urlExtracted (files : List SitemapDoc) (u : String) : Bool :=
  files.any (fun d => locYields d u)

/-! ## Page Fetcher (`fetch_store_page`, lines 42-50)

The network outcome of `session.get` is an input: either an
`aiohttp.ClientError` raised during the request, or a response with a
status and a body.  `response.raise_for_status()` raises
`ClientResponseError` (a `ClientError`) exactly when `status >= 400`;
the `except aiohttp.ClientError` handler prints
`f"Error fetching {url}: {e}"` and returns `None`. -/

inductive TransportResult where
  | clientError (cause : String)
  | response (status : Nat) (body : String)
deriving DecidableEq, Repr

def fetch_store_page (url : String) (net : TransportResult) :
    Option String × List String :=
  match net with
  | .clientError cause =>
      (none, ["Error fetching " ++ url ++ ": " ++ cause])
  | .response status body =>
      if 400 ≤ status then
        (none, ["Error fetching " ++ url ++ ": HTTP status " ++ toString status])
      else
        (some body, [])

/-! ## Field Extractor (`parse_store_details`, lines 52-106)

The BeautifulSoup document is modelled by the results of exactly the
queries the code performs: each `find` by id/class yields the raw `.text`
of the found element (`none` when absent), the hours table yields its
list of `tr` rows (each row the list of its `td` cells, each cell its raw
text and the raw text of its `span.week-hours` child if any), and the
desktop services container yields the raw texts of the elements selected
by `div.service > div`.  (An empty found tag would make bs4 truthiness
subtle, but its stripped text is empty either way, which is all the code
observes.) -/

structure Cell where
  text : String
  weekHoursSpan : Option String
deriving DecidableEq, Repr

structure Row where
  cols : List Cell
deriving DecidableEq, Repr

structure Page where
  storeName : Option String
  addressLine1 : Option String
  addressLine2 : Option String
  phoneNo : Option String
  directionsHref : Option String
  hoursTable : Option (List Row)
  servicesDesktop : Option (List String)
  servicesMobile : Option (List String)
deriving DecidableEq, Repr

/-- The `get_text` helper (lines 61-62): strip the text of a found
element, `None` when absent. -/
def get_text (element : Option String) : Option String :=
  element.map pyStrip

/-- The Python dict `store_data` as produced by `parse_store_details`:
all eight keys are always assigned, `hours` always to a dict and
`services` always to a list. -/
structure StoreRecord where
  url : String
  name : Option String
  address_line_1 : Option String
  address_line_2 : Option String
  phone : Option String
  directions_url : Option String
  hours : List (String × String)
  services : List String
deriving DecidableEq, Repr

/-- Python dict assignment `m[k] = v`: update in place when the key is
present (keeping its position), append otherwise. -/
def dictInsert (m : List (String × String)) (k v : String) :
    List (String × String) :=
  match m with
  | [] => [(k, v)]
  | (k', v') :: rest =>
      if k' = k then (k, v) :: rest else (k', v') :: dictInsert rest k v

/-- One iteration of the hours loop (lines 79-86): rows whose `td` list
does not have exactly two entries are skipped; a pair is recorded only
when both the day label and the `span.week-hours` text are truthy after
stripping. -/
def hoursStep (m : List (String × String)) (row : Row) :
    List (String × String) :=
  match row.cols with
  | [c0, c1] =>
      let day := pyStrip c0.text
      match get_text c1.weekHoursSpan with
      | some time => if day ≠ "" ∧ time ≠ "" then dictInsert m day time else m
      | none => m
  | _ => m

/-- The hours dict (lines 76-87): empty when the table is absent. -/
def hoursOf (table? : Option (List Row)) : List (String × String) :=
  match table? with
  | none => []
  | some rows => rows.foldl hoursStep []

/-- One iteration of the services loop (lines 95-98): strip the selected
element's text, append when non-empty. -/
def serviceStep (acc : List String) (t : String) : List String :=
  if pyStrip t ≠ "" then acc ++ [pyStrip t] else acc

/-- The services accumulation loop (lines 90-98). -/
def servicesRaw (container? : Option (List String)) : List String :=
  match container? with
  | none => []
  | some texts => texts.foldl serviceStep []

/-- Python `sorted` on strings: insertion sort under the code-point
order yields the same output, since a sorted arrangement of a multiset
is unique under a linear order. -/
def pySorted (l : List String) : List String :=
  List.insertionSort strLe l

/-- `parse_store_details` (lines 52-106).  `content = none` stands for a
falsy `html_content`; otherwise the soup queries yield the given `Page`.
The second component collects the printed diagnostics. -/
def parse_store_details (content : Option Page) (url : String) :
    Option StoreRecord × List String :=
  match content with
  | none => (none, [])
  | some soup =>
      let record : StoreRecord :=
        { url := url
          name := get_text soup.storeName
          address_line_1 := get_text soup.addressLine1
          address_line_2 := get_text soup.addressLine2
          phone := get_text soup.phoneNo
          directions_url := soup.directionsHref
          hours := hoursOf soup.hoursTable
          services := pySorted (servicesRaw soup.servicesDesktop) }
      if truthy record.name then (some record, [])
      else (none, ["Could not parse store name from " ++ url ++ ". Skipping."])

/-! ## Bounded Dispatcher (`scrape_with_semaphore`, lines 115-119)

The per-URL pipeline's control flow, as an event trace.  In
`scrape_with_semaphore` the `async with semaphore` block wraps the whole
of `scrape_and_parse_store`, i.e. the fetch and (when the fetch yields
truthy html) the parse; the permit is released when the block exits,
which an `async with` does on normal return and on exception alike. -/

inductive Ev where
  | acquire
  | fetchStart
  | fetchEnd
  | extract
  | release
deriving DecidableEq, Repr

/-- Trace of `scrape_and_parse_store` (lines 108-113): fetch, then parse
exactly when the fetch produced truthy html. -/
def scrape_and_parse_store_events (fetchOk : Bool) : List Ev :=
  [.fetchStart, .fetchEnd] ++ (if fetchOk then [.extract] else [])

/-- Trace of `scrape_with_semaphore` (lines 115-119): the semaphore is
acquired before, and released after, the whole inner pipeline. -/
def scrape_with_semaphore_events (fetchOk : Bool) : List Ev :=
  [.acquire] ++ scrape_and_parse_store_events fetchOk ++ [.release]

/-! ## Result Finalizer (`main`, lines 141-151) -/

/-- The sort key `lambda x: x.get('name', '')`. -/
def nameKey (r : StoreRecord) : String :=
  r.name.getD ""

def nameLe (a b : StoreRecord) : Prop :=
  strLe (nameKey a) (nameKey b)

instance : DecidableRel nameLe := fun a b =>
  inferInstanceAs (Decidable (strLe (nameKey a) (nameKey b)))

/-- Lines 141-151: drop the `None` outcomes, then
`all_stores_data.sort(key=lambda x: x.get('name', ''))` (a stable sort by
the name key; insertion sort is one). -/
def finalize (results : List (Option StoreRecord)) : List StoreRecord :=
  List.insertionSort nameLe (results.filterMap id)

/-! ## Specification-side reformulations

Definitions written from the specification's words, to be compared with
the code-side functions above. -/

/-- From the spec's description of the hours rows: a row contributes a
day/hours pair exactly when it has exactly two cell elements, the first
cell's trimmed text (the day label) is non-empty, and the second cell
holds a week-hours element whose trimmed text is non-empty. -/
def rowPair (row : Row) : Option (String × String) :=
  match row.cols with
  | [c0, c1] =>
      match c1.weekHoursSpan with
      | some spanText =>
          if pyStrip c0.text ≠ "" ∧ pyStrip spanText ≠ "" then
            some (pyStrip c0.text, pyStrip spanText)
          else none
      | none => none
  | _ => none

/-- Insert a sequence of key/value pairs into a dict, in order. -/
def insertAll (m : List (String × String)) (l : List (String × String)) :
    List (String × String) :=
  l.foldl (fun acc p => dictInsert acc p.1 p.2) m

/-- The value of the last pair of `l` whose key is `k`, if any: the
"last row in document order wins" reading of repeated dict
assignments. -/
def lastValueFor (k : String) : List (String × String) → Option String
  | [] => none
  | p :: l =>
      match lastValueFor k l with
      | some v => some v
      | none => if p.1 = k then some p.2 else none

/-- Dict access `m[k]` on the association-list model of a Python dict. -/
def dictGet (k : String) : List (String × String) → Option String
  | [] => none
  | p :: rest => if p.1 = k then some p.2 else dictGet k rest

/-! ## Concrete sample inputs -/

/-- A page carrying only a store name. -/
def pageNameOnly : Page :=
  { storeName := some " Berri ", addressLine1 := none, addressLine2 := none,
    phoneNo := none, directionsHref := none, hoursTable := none,
    servicesDesktop := none, servicesMobile := none }

/-- The record scraped from `pageNameOnly`. -/
def recNameOnly : StoreRecord :=
  { url := "u", name := some "Berri", address_line_1 := none, address_line_2 := none,
    phone := none, directions_url := none, hours := [], services := [] }

/-- A page with every field populated except the store name. -/
def pageNoName : Page :=
  { storeName := none, addressLine1 := some " 1 Main St ", addressLine2 := some "Town",
    phoneNo := some "123", directionsHref := some "https://maps.google.com/?q=1",
    hoursTable := some [⟨[⟨"Mon", none⟩, ⟨"", some "9-5"⟩]⟩],
    servicesDesktop := some ["Deli"], servicesMobile := none }

/-- A page whose desktop services container lists entries in the source
order Deli, Bakery. -/
def pageDeli : Page :=
  { storeName := some "S", addressLine1 := none, addressLine2 := none,
    phoneNo := none, directionsHref := none, hoursTable := none,
    servicesDesktop := some ["Deli", "Bakery"], servicesMobile := none }

/-- The record scraped from `pageDeli`. -/
def recDeli : StoreRecord :=
  { url := "u", name := some "S", address_line_1 := none, address_line_2 := none,
    phone := none, directions_url := none, hours := [], services := ["Bakery", "Deli"] }

/-- Hours rows of several shapes: one well-formed, one with a single
cell, one with a whitespace day, one without a week-hours element and
one whose week-hours text is whitespace. -/
def hoursRowsSample : List Row :=
  [⟨[⟨" Monday ", none⟩, ⟨"ignored", some " 9am - 5pm "⟩]⟩,
   ⟨[⟨"X", none⟩]⟩,
   ⟨[⟨"  ", none⟩, ⟨"", some "9-5"⟩]⟩,
   ⟨[⟨"Tue", none⟩, ⟨"z", none⟩]⟩,
   ⟨[⟨"W", none⟩, ⟨"", some "   "⟩]⟩]

/-- A page whose hours table is `hoursRowsSample`. -/
def pageHours : Page :=
  { storeName := some "S", addressLine1 := none, addressLine2 := none,
    phoneNo := none, directionsHref := none, hoursTable := some hoursRowsSample,
    servicesDesktop := none, servicesMobile := none }

/-- The record scraped from `pageHours`. -/
def recHours : StoreRecord :=
  { url := "u", name := some "S", address_line_1 := none, address_line_2 := none,
    phone := none, directions_url := none, hours := [("Monday", "9am - 5pm")],
    services := [] }

/-- Two rows whose day labels both strip to Mon. -/
def rowsDup : List Row :=
  [⟨[⟨"Mon", none⟩, ⟨"", some "9-5"⟩]⟩,
   ⟨[⟨" Mon ", none⟩, ⟨"", some " 10-6 "⟩]⟩]

/-- A sitemap file listing a shared URL and a second URL. -/
def fileA : SitemapDoc := .doc [some "https://x/store/1", some "https://x/a"]

/-- A second sitemap file listing the shared URL again. -/
def fileB : SitemapDoc := .doc [some "https://x/store/1"]

/-! ## Order lemmas for the code-point comparison -/

theorem char_toNat_inj {a b : Char} (h : a.toNat = b.toNat) : a = b :=
  Char.ext (UInt32.ext h)

theorem lexLe_total (as : List Char) : ∀ bs, lexLe as bs = true ∨ lexLe bs as = true := by
  induction as with
  | nil => intro bs; left; rfl
  | cons a as ih =>
    intro bs
    cases bs with
    | nil => right; rfl
    | cons b bs =>
      by_cases hab : a = b
      · subst hab
        simpa [lexLe] using ih bs
      · have hn : a.toNat ≠ b.toNat := fun h => hab (char_toNat_inj h)
        have hba : b ≠ a := fun h => hab h.symm
        rcases Nat.lt_or_ge a.toNat b.toNat with h | h
        · left; simp [lexLe, hab, h]
        · have h' : b.toNat < a.toNat := by omega
          right; simp [lexLe, hba, h']

theorem lexLe_trans (as : List Char) :
    ∀ bs cs, lexLe as bs = true → lexLe bs cs = true → lexLe as cs = true := by
  induction as with
  | nil => intro bs cs _ _; rfl
  | cons a as ih =>
    intro bs cs h1 h2
    cases bs with
    | nil => simp [lexLe] at h1
    | cons b bs =>
      cases cs with
      | nil => simp [lexLe] at h2
      | cons c cs =>
        by_cases hab : a = b
        · subst hab
          simp only [lexLe, if_pos rfl] at h1
          by_cases hbc : a = c
          · subst hbc
            simp only [lexLe, if_pos rfl] at h2 ⊢
            exact ih bs cs h1 h2
          · simpa [lexLe, hbc] using h2
        · simp only [lexLe, if_neg hab, decide_eq_true_eq] at h1
          by_cases hbc : b = c
          · subst hbc
            simpa [lexLe, hab] using h1
          · simp only [lexLe, if_neg hbc, decide_eq_true_eq] at h2
            by_cases hac : a = c
            · subst hac; omega
            · simp only [lexLe, if_neg hac, decide_eq_true_eq]
              omega

theorem lexLe_antisymm (as : List Char) :
    ∀ bs, lexLe as bs = true → lexLe bs as = true → as = bs := by
  induction as with
  | nil =>
    intro bs _ h2
    cases bs with
    | nil => rfl
    | cons b bs => simp [lexLe] at h2
  | cons a as ih =>
    intro bs h1 h2
    cases bs with
    | nil => simp [lexLe] at h1
    | cons b bs =>
      by_cases hab : a = b
      · subst hab
        simp only [lexLe, if_pos rfl] at h1 h2
        rw [ih bs h1 h2]
      · have hba : b ≠ a := fun h => hab h.symm
        simp only [lexLe, if_neg hab, if_neg hba, decide_eq_true_eq] at h1 h2
        omega

theorem strLe_total (a b : String) : strLe a b ∨ strLe b a :=
  lexLe_total a.data b.data

theorem strLe_trans {a b c : String} (h1 : strLe a b) (h2 : strLe b c) : strLe a c :=
  lexLe_trans a.data b.data c.data h1 h2

theorem strLe_antisymm {a b : String} (h1 : strLe a b) (h2 : strLe b a) : a = b := by
  cases a with
  | mk as =>
    cases b with
    | mk bs =>
      exact congrArg String.mk (lexLe_antisymm as bs h1 h2)

instance : IsTotal String strLe := ⟨strLe_total⟩

instance : IsTrans String strLe := ⟨fun _ _ _ => strLe_trans⟩

instance : IsAntisymm String strLe := ⟨fun _ _ => strLe_antisymm⟩

instance : IsTotal StoreRecord nameLe := ⟨fun a b => strLe_total (nameKey a) (nameKey b)⟩

instance : IsTrans StoreRecord nameLe := ⟨fun _ _ _ => strLe_trans⟩

theorem sorted_pySorted (l : List String) : List.Sorted strLe (pySorted l) :=
  List.sorted_insertionSort strLe l

theorem perm_pySorted (l : List String) : List.Perm (pySorted l) l :=
  List.perm_insertionSort strLe l

theorem pySorted_eq_of_perm {l₁ l₂ : List String} (h : List.Perm l₁ l₂) :
    pySorted l₁ = pySorted l₂ :=
  List.eq_of_perm_of_sorted
    ((perm_pySorted l₁).trans (h.trans (perm_pySorted l₂).symm))
    (sorted_pySorted l₁) (sorted_pySorted l₂)

/-! ## URL Extractor lemmas -/

theorem mem_setInsert (urls : List String) (u v : String) :
    v ∈ setInsert urls u ↔ v ∈ urls ∨ v = u := by
  unfold setInsert
  split
  · constructor
    · exact Or.inl
    · rintro (h | rfl)
      · exact h
      · assumption
  · simp

theorem nodup_setInsert (urls : List String) (u : String) (h : urls.Nodup) :
    (setInsert urls u).Nodup := by
  unfold setInsert
  split
  · exact h
  · simp_all [List.nodup_append]

theorem mem_locStep (acc : List String) (t? : Option String) (u : String) :
    u ∈ locStep acc t? ↔ u ∈ acc ∨ locMatches u t? = true := by
  cases t? with
  | none => simp [locStep, locMatches]
  | some t =>
    by_cases h : t = ""
    · simp [locStep, locMatches, h]
    · have hstep : locStep acc (some t) = setInsert acc (pyStrip t) := by
        simp [locStep, h]
      have hm : locMatches u (some t) = true ↔ pyStrip t = u := by
        simp [locMatches, h]
      rw [hstep, mem_setInsert, hm]
      constructor
      · rintro (h' | h')
        · exact Or.inl h'
        · exact Or.inr h'.symm
      · rintro (h' | h')
        · exact Or.inl h'
        · exact Or.inr h'.symm

theorem nodup_locStep (acc : List String) (t? : Option String) (h : acc.Nodup) :
    (locStep acc t?).Nodup := by
  cases t? with
  | none => exact h
  | some t =>
    by_cases ht : t = ""
    · simpa [locStep, ht] using h
    · have hstep : locStep acc (some t) = setInsert acc (pyStrip t) := by
        simp [locStep, ht]
      rw [hstep]
      exact nodup_setInsert _ _ h

theorem mem_locFold (locTexts : List (Option String)) :
    ∀ (init : List String) (u : String),
      u ∈ locTexts.foldl locStep init ↔ u ∈ init ∨ locTexts.any (locMatches u) = true := by
  induction locTexts with
  | nil => simp
  | cons t? rest ih =>
    intro init u
    simp only [List.foldl_cons, List.any_cons, ih, mem_locStep, Bool.or_eq_true]
    tauto

theorem nodup_locFold (locTexts : List (Option String)) :
    ∀ init : List String, init.Nodup → (locTexts.foldl locStep init).Nodup := by
  induction locTexts with
  | nil => exact fun _ h => h
  | cons t? rest ih =>
    intro init h
    exact ih _ (nodup_locStep _ _ h)

theorem mem_addFileURLs (d : SitemapDoc) (init : List String) (u : String) :
    u ∈ addFileURLs init d ↔ u ∈ init ∨ locYields d u = true := by
  cases d with
  | malformed => simp [addFileURLs, locYields]
  | missing => simp [addFileURLs, locYields]
  | doc locTexts => simpa [addFileURLs, locYields] using mem_locFold locTexts init u

theorem nodup_addFileURLs (d : SitemapDoc) (init : List String) (h : init.Nodup) :
    (addFileURLs init d).Nodup := by
  cases d with
  | malformed => exact h
  | missing => exact h
  | doc locTexts => exact nodup_locFold locTexts init h

theorem mem_filesFold (files : List SitemapDoc) :
    ∀ (init : List String) (u : String),
      u ∈ files.foldl addFileURLs init ↔ u ∈ init ∨ urlExtracted files u = true := by
  induction files with
  | nil => simp [urlExtracted]
  | cons d rest ih =>
    intro init u
    simp only [List.foldl_cons, urlExtracted, List.any_cons, ih, mem_addFileURLs,
      Bool.or_eq_true]
    constructor
    · rintro ((h | h) | h)
      · exact Or.inl h
      · exact Or.inr (Or.inl h)
      · exact Or.inr (Or.inr h)
    · rintro (h | h | h)
      · exact Or.inl (Or.inl h)
      · exact Or.inl (Or.inr h)
      · exact Or.inr h

theorem mem_parse_sitemaps (files : List SitemapDoc) (u : String) :
    u ∈ parse_sitemaps files ↔ urlExtracted files u = true := by
  simpa [parse_sitemaps] using mem_filesFold files [] u

theorem nodup_parse_sitemaps (files : List SitemapDoc) :
    (parse_sitemaps files).Nodup := by
  unfold parse_sitemaps
  have h : ∀ init : List String, init.Nodup → (files.foldl addFileURLs init).Nodup := by
    induction files with
    | nil => exact fun _ h => h
    | cons d rest ih => exact fun init h => ih _ (nodup_addFileURLs d init h)
  exact h [] List.nodup_nil

/-! ## Dict and hours lemmas -/

theorem dictGet_dictInsert (m : List (String × String)) (k v k' : String) :
    dictGet k' (dictInsert m k v) = if k = k' then some v else dictGet k' m := by
  induction m with
  | nil =>
    by_cases h : k = k' <;> simp [dictInsert, dictGet, h]
  | cons p rest ih =>
    obtain ⟨a, b⟩ := p
    by_cases hak : a = k
    · subst hak
      by_cases h : a = k' <;> simp [dictInsert, dictGet, h]
    · by_cases ha : a = k'
      · subst ha
        have hk : ¬k = a := fun hh => hak hh.symm
        simp [dictInsert, hak, dictGet, hk]
      · simp [dictInsert, hak, dictGet, ha, ih]

theorem keys_dictInsert (m : List (String × String)) (k v : String) :
    (dictInsert m k v).map Prod.fst =
      if k ∈ m.map Prod.fst then m.map Prod.fst else m.map Prod.fst ++ [k] := by
  induction m with
  | nil => simp [dictInsert]
  | cons p rest ih =>
    obtain ⟨a, b⟩ := p
    by_cases hak : a = k
    · subst hak
      simp [dictInsert]
    · have hka : ¬k = a := fun hh => hak hh.symm
      by_cases hmem : k ∈ rest.map Prod.fst <;>
        simp [dictInsert, hak, hka, ih, hmem]

theorem nodup_keys_dictInsert (m : List (String × String)) (k v : String)
    (h : (m.map Prod.fst).Nodup) : ((dictInsert m k v).map Prod.fst).Nodup := by
  rw [keys_dictInsert]
  split
  · exact h
  · simp_all [List.nodup_append]

theorem dictGet_insertAll (l : List (String × String)) :
    ∀ (m : List (String × String)) (k : String),
      dictGet k (insertAll m l) =
        match lastValueFor k l with
        | some v => some v
        | none => dictGet k m := by
  induction l with
  | nil => intro m k; rfl
  | cons p l ih =>
    intro m k
    have hstep : insertAll m (p :: l) = insertAll (dictInsert m p.1 p.2) l := rfl
    rw [hstep, ih]
    cases hl : lastValueFor k l with
    | some v => simp [lastValueFor, hl]
    | none =>
      rw [dictGet_dictInsert]
      by_cases h : p.1 = k <;> simp [lastValueFor, hl, h]

theorem nodup_keys_insertAll (l : List (String × String)) :
    ∀ m : List (String × String), (m.map Prod.fst).Nodup →
      ((insertAll m l).map Prod.fst).Nodup := by
  induction l with
  | nil => exact fun _ h => h
  | cons p l ih =>
    intro m h
    exact ih _ (nodup_keys_dictInsert m p.1 p.2 h)

theorem hoursStep_eq (m : List (String × String)) (row : Row) :
    hoursStep m row =
      match rowPair row with
      | some (d, t) => dictInsert m d t
      | none => m := by
  obtain ⟨cols⟩ := row
  match cols with
  | [] => rfl
  | [c0] => rfl
  | c0 :: c1 :: c2 :: rest => rfl
  | [c0, c1] =>
    cases hspan : c1.weekHoursSpan with
    | none => simp [hoursStep, rowPair, get_text, hspan]
    | some spanText =>
      by_cases hcond : pyStrip c0.text ≠ "" ∧ pyStrip spanText ≠ "" <;>
        simp [hoursStep, rowPair, get_text, hspan, hcond]

theorem foldl_hoursStep (rows : List Row) :
    ∀ m : List (String × String),
      rows.foldl hoursStep m = insertAll m (rows.filterMap rowPair) := by
  induction rows with
  | nil => intro m; rfl
  | cons r rows ih =>
    intro m
    rw [List.foldl_cons, ih, hoursStep_eq]
    cases hr : rowPair r with
    | none => rw [List.filterMap_cons_none hr]
    | some p =>
      obtain ⟨d, t⟩ := p
      rw [List.filterMap_cons_some hr]
      rfl

theorem hoursOf_some (rows : List Row) :
    hoursOf (some rows) = insertAll [] (rows.filterMap rowPair) :=
  foldl_hoursStep rows []

theorem nodup_keys_hoursOf (table? : Option (List Row)) :
    ((hoursOf table?).map Prod.fst).Nodup := by
  cases table? with
  | none => simp [hoursOf]
  | some rows =>
    rw [hoursOf_some]
    exact nodup_keys_insertAll _ [] (by simp)

/-! ## Services lemmas -/

theorem servicesFold (texts : List String) :
    ∀ acc : List String,
      texts.foldl serviceStep acc = acc ++ (texts.map pyStrip).filter (fun s => s ≠ "") := by
  induction texts with
  | nil => simp
  | cons t ts ih =>
    intro acc
    rw [List.foldl_cons]
    by_cases h : pyStrip t ≠ ""
    · rw [show serviceStep acc t = acc ++ [pyStrip t] by simp [serviceStep, h], ih]
      simp [List.filter_cons, h]
    · rw [show serviceStep acc t = acc by simp [serviceStep, h], ih]
      simp only [not_not] at h
      simp [List.filter_cons, h]

theorem servicesRaw_some (texts : List String) :
    servicesRaw (some texts) = (texts.map pyStrip).filter (fun s => s ≠ "") := by
  simpa using servicesFold texts []

theorem servicesRaw_perm {texts texts' : List String} (h : List.Perm texts texts') :
    List.Perm (servicesRaw (some texts)) (servicesRaw (some texts')) := by
  rw [servicesRaw_some, servicesRaw_some]
  exact (h.map pyStrip).filter _

/-! ## Field Extractor lemmas -/

theorem truthy_iff_getD (o : Option String) : truthy o = true ↔ o.getD "" ≠ "" := by
  cases o with
  | none => simp [truthy]
  | some s => simp [truthy]

theorem parse_store_details_some (p : Page) (url : String) :
    parse_store_details (some p) url =
      if truthy (get_text p.storeName) then
        (some { url := url
                name := get_text p.storeName
                address_line_1 := get_text p.addressLine1
                address_line_2 := get_text p.addressLine2
                phone := get_text p.phoneNo
                directions_url := p.directionsHref
                hours := hoursOf p.hoursTable
                services := pySorted (servicesRaw p.servicesDesktop) }, [])
      else (none, ["Could not parse store name from " ++ url ++ ". Skipping."]) :=
  rfl

theorem parse_store_details_eq_some {p : Page} {url : String} {rec : StoreRecord}
    (h : (parse_store_details (some p) url).1 = some rec) :
    truthy (get_text p.storeName) = true ∧
    rec = { url := url
            name := get_text p.storeName
            address_line_1 := get_text p.addressLine1
            address_line_2 := get_text p.addressLine2
            phone := get_text p.phoneNo
            directions_url := p.directionsHref
            hours := hoursOf p.hoursTable
            services := pySorted (servicesRaw p.servicesDesktop) } := by
  rw [parse_store_details_some] at h
  by_cases ht : truthy (get_text p.storeName)
  · rw [if_pos ht] at h
    exact ⟨ht, (Option.some_inj.mp h).symm⟩
  · rw [if_neg ht] at h
    simp at h

/-! ## Claims -/

/-- C1 counterexample: in the code's pipeline trace for a successful
fetch, field extraction completes strictly before the permit is
released (the `async with semaphore` block wraps fetch and parse), so
the permit is not released before or during extraction. -/
theorem C1_counterexample :
    scrape_with_semaphore_events true =
      [Ev.acquire, Ev.fetchStart, Ev.fetchEnd, Ev.extract, Ev.release] ∧
    List.indexOf Ev.extract (scrape_with_semaphore_events true) <
      List.indexOf Ev.release (scrape_with_semaphore_events true) := by
  decide

/-- C1 (amended): every per-URL pipeline acquires the permit before
invoking the fetch and releases it exactly once, unconditionally on
success or failure, but only after the whole pipeline — fetch and, on a
successful fetch, field extraction — has completed. -/
theorem C1_permit_scope (ok : Bool) :
    (scrape_with_semaphore_events ok).head? = some Ev.acquire ∧
    (scrape_with_semaphore_events ok).getLast? = some Ev.release ∧
    (scrape_with_semaphore_events ok).count Ev.acquire = 1 ∧
    (scrape_with_semaphore_events ok).count Ev.release = 1 ∧
    List.indexOf Ev.acquire (scrape_with_semaphore_events ok) <
      List.indexOf Ev.fetchStart (scrape_with_semaphore_events ok) := by
  cases ok <;> decide

/-- C2 counterexample: a `loc` element whose text is only whitespace
passes the pre-strip truthiness test, so the empty string is inserted
into the URL set. -/
theorem C2_counterexample :
    "" ∈ parse_sitemaps [SitemapDoc.doc [some "   "]] := by
  decide

/-- C2 (amended): the URL Extractor inserts exactly the stripped values
of those `url/loc` texts that are non-empty before stripping; a `loc`
text consisting only of whitespace therefore contributes the empty
string to the URL set. -/
theorem C2_extraction_membership (files : List SitemapDoc) (u : String) :
    u ∈ parse_sitemaps files ↔ urlExtracted files u = true :=
  mem_parse_sitemaps files u

/-- C3: a record is produced exactly when the stripped store name is
present and non-empty; on success the record's name is that non-empty
text, and when the name is absent or empty the extractor returns no
record and prints a diagnostic naming the source URL.  The page's other
fields are universally quantified, so no other missing field invalidates
the record. -/
theorem C3_name_validation_gate (p : Page) (url : String) :
    ((parse_store_details (some p) url).1.isSome = true ↔
        truthy (get_text p.storeName) = true) ∧
    (∀ rec : StoreRecord, (parse_store_details (some p) url).1 = some rec →
        rec.name = get_text p.storeName ∧ rec.name.getD "" ≠ "") ∧
    (truthy (get_text p.storeName) = false →
        parse_store_details (some p) url =
          (none, ["Could not parse store name from " ++ url ++ ". Skipping."])) := by
  refine ⟨?_, ?_, ?_⟩
  · rw [parse_store_details_some]
    by_cases ht : truthy (get_text p.storeName) <;> simp [ht]
  · intro rec h
    obtain ⟨ht, hrec⟩ := parse_store_details_eq_some h
    subst hrec
    exact ⟨rfl, (truthy_iff_getD _).mp ht⟩
  · intro ht
    rw [parse_store_details_some, if_neg]
    simp [ht]

/-- C3 witness: a page with every field populated except the name is
rejected with the diagnostic naming its URL. -/
theorem C3_witness :
    parse_store_details (some pageNoName) "https://x/s" =
      (none, ["Could not parse store name from https://x/s. Skipping."]) := by
  have h := (C3_name_validation_gate pageNoName "https://x/s").2.2 (by decide)
  exact h.trans (by decide)

/-- C4: the final output is sorted ascending by name (absent names read
as the empty string), and is a permutation of the collected outcomes
with the absent ones dropped. -/
theorem C4_final_output_sorted (results : List (Option StoreRecord)) :
    List.Sorted nameLe (finalize results) ∧
    List.Perm (finalize results) (results.filterMap id) :=
  ⟨List.sorted_insertionSort nameLe _, List.perm_insertionSort nameLe _⟩

/-- C5 counterexample: a 304 response is not a 2xx status, yet the
fetcher returns its body with no diagnostic, because
`raise_for_status` only raises for statuses of 400 and above. -/
theorem C5_counterexample :
    fetch_store_page "https://x/s" (TransportResult.response 304 "body") =
      (some "body", []) ∧ ¬(200 ≤ 304 ∧ 304 < 300) := by
  decide

/-- C5 (amended): a transport-level failure and an HTTP status of 400 or
above are equivalent failure outcomes — a diagnostic containing the URL
and no content, with no retry; any response with status below 400
(including non-2xx statuses such as 304) has its body returned as
text. -/
theorem C5_fetch_failure_handling (url : String) (net : TransportResult) :
    (∀ cause, net = TransportResult.clientError cause →
        (fetch_store_page url net).1 = none ∧
        ∃ a b, (fetch_store_page url net).2 = [a ++ url ++ b]) ∧
    (∀ status body, net = TransportResult.response status body →
        (400 ≤ status →
          (fetch_store_page url net).1 = none ∧
          ∃ a b, (fetch_store_page url net).2 = [a ++ url ++ b]) ∧
        (status < 400 → fetch_store_page url net = (some body, []))) := by
  constructor
  · rintro cause rfl
    refine ⟨rfl, "Error fetching ", ": " ++ cause, ?_⟩
    simp [fetch_store_page, String.append_assoc]
  · rintro status body rfl
    constructor
    · intro h400
      refine ⟨?_, "Error fetching ", ": HTTP status " ++ toString status, ?_⟩
      · simp [fetch_store_page, h400]
      · simp [fetch_store_page, h400, String.append_assoc]
    · intro hlt
      simp [fetch_store_page, Nat.not_le.mpr hlt]

/-- C5 witness: a 500 response and a transport error both yield no
content; a 199 response's body is returned. -/
theorem C5_witness :
    (fetch_store_page "u" (TransportResult.response 500 "x")).1 = none ∧
    fetch_store_page "u" (TransportResult.response 199 "y") = (some "y", []) ∧
    (fetch_store_page "u" (TransportResult.clientError "boom")).1 = none := by
  refine ⟨?_, ?_, ?_⟩
  · exact (((C5_fetch_failure_handling "u" _).2 500 "x" rfl).1 (by decide)).1
  · exact ((C5_fetch_failure_handling "u" _).2 199 "y" rfl).2 (by decide)
  · exact ((C5_fetch_failure_handling "u" _).1 "boom" rfl).1

/-- C6: the services stored in an emitted record are the sorted,
stripped, non-empty texts of the desktop services container; the list is
sorted, is invariant under any reordering of the container's entries,
and the mobile container plays no role in the result. -/
theorem C6_services_sorted_desktop (p : Page) (url : String) (rec : StoreRecord)
    (h : (parse_store_details (some p) url).1 = some rec) :
    rec.services = pySorted (servicesRaw p.servicesDesktop) ∧
    List.Sorted strLe rec.services ∧
    (∀ texts texts', p.servicesDesktop = some texts → List.Perm texts texts' →
        pySorted (servicesRaw (some texts')) = rec.services) ∧
    (∀ m, parse_store_details (some { p with servicesMobile := m }) url =
        parse_store_details (some p) url) := by
  obtain ⟨ht, hrec⟩ := parse_store_details_eq_some h
  subst hrec
  refine ⟨rfl, sorted_pySorted _, ?_, fun m => rfl⟩
  intro texts texts' hdesk hperm
  rw [hdesk]
  exact pySorted_eq_of_perm (servicesRaw_perm hperm).symm

/-- C6 witness: source order Deli, Bakery yields the sorted services
list Bakery, Deli, and so does the reordered container. -/
theorem C6_witness :
    (parse_store_details (some pageDeli) "u").1 = some recDeli ∧
    recDeli.services = ["Bakery", "Deli"] ∧
    pySorted (servicesRaw (some ["Bakery", "Deli"])) = recDeli.services := by
  have h : (parse_store_details (some pageDeli) "u").1 = some recDeli := by decide
  refine ⟨h, by decide, ?_⟩
  exact (C6_services_sorted_desktop pageDeli "u" recDeli h).2.2.1
    ["Deli", "Bakery"] ["Bakery", "Deli"] rfl (List.Perm.swap "Bakery" "Deli" [])

/-- C7: the hours mapping of an emitted record is built by folding the
table's rows, where a row contributes exactly when it has exactly two
cells, a non-empty stripped day label and a non-empty stripped
week-hours text (`rowPair`); all other rows are skipped with no
diagnostic, and an absent table gives an empty mapping. -/
theorem C7_hours_row_shape (p : Page) (url : String) (rec : StoreRecord)
    (h : (parse_store_details (some p) url).1 = some rec) :
    (∀ rows, p.hoursTable = some rows →
        rec.hours = insertAll [] (rows.filterMap rowPair)) ∧
    (p.hoursTable = none → rec.hours = []) := by
  obtain ⟨ht, hrec⟩ := parse_store_details_eq_some h
  subst hrec
  constructor
  · intro rows hrows
    rw [hrows, hoursOf_some]
  · intro hnone
    rw [hnone]
    rfl

/-- C7 witness: of five rows, only the well-formed two-cell row with
non-empty day and hours contributes; the malformed ones are skipped. -/
theorem C7_witness :
    insertAll [] (hoursRowsSample.filterMap rowPair) = [("Monday", "9am - 5pm")] ∧
    (parse_store_details (some pageHours) "u").1 = some recHours := by
  have h : (parse_store_details (some pageHours) "u").1 = some recHours := by decide
  have h2 := (C7_hours_row_shape pageHours "u" recHours h).1 hoursRowsSample rfl
  exact ⟨h2.symm.trans (by decide), h⟩

/-- C8: the extracted URL list is duplicate-free, it holds a URL exactly
once when some sitemap file contributes it and zero times otherwise,
and the extracted set does not depend on the order of the files, so a
second run over the same file set yields the same set. -/
theorem C8_dedup_idempotent (files : List SitemapDoc) :
    (parse_sitemaps files).Nodup ∧
    (∀ u, (parse_sitemaps files).count u = if urlExtracted files u then 1 else 0) ∧
    (∀ files', List.Perm files files' →
        (parse_sitemaps files).toFinset = (parse_sitemaps files').toFinset) := by
  refine ⟨nodup_parse_sitemaps files, ?_, ?_⟩
  · intro u
    by_cases h : urlExtracted files u
    · rw [if_pos h]
      exact List.count_eq_one_of_mem (nodup_parse_sitemaps files)
        ((mem_parse_sitemaps files u).mpr h)
    · rw [if_neg h]
      refine List.count_eq_zero.mpr fun hmem => h ?_
      simpa using (mem_parse_sitemaps files u).mp hmem
  · intro files' hperm
    ext u
    simp only [List.mem_toFinset, mem_parse_sitemaps, urlExtracted, List.any_eq_true]
    constructor
    · rintro ⟨d, hd, hy⟩
      exact ⟨d, hperm.subset hd, hy⟩
    · rintro ⟨d, hd, hy⟩
      exact ⟨d, hperm.symm.subset hd, hy⟩

/-- C8 witness: a URL listed in two files is extracted exactly once, and
swapping the two files leaves the extracted set unchanged. -/
theorem C8_witness :
    (parse_sitemaps [fileA, fileB]).count "https://x/store/1" = 1 ∧
    (parse_sitemaps [fileA, fileB]).toFinset = (parse_sitemaps [fileB, fileA]).toFinset := by
  constructor
  · have h := (C8_dedup_idempotent [fileA, fileB]).2.1 "https://x/store/1"
    rw [h]
    decide
  · exact (C8_dedup_idempotent [fileA, fileB]).2.2 [fileB, fileA]
      (List.Perm.swap fileB fileA [])

/-- C9: when several contributing rows strip to the same day label, the
emitted mapping holds the hours text of the last such row, and every
day occurs at most once among the mapping's keys. -/
theorem C9_duplicate_day_last_wins (rows : List Row) (d t : String) :
    (lastValueFor d (rows.filterMap rowPair) = some t →
        dictGet d (hoursOf (some rows)) = some t) ∧
    ((hoursOf (some rows)).map Prod.fst).Nodup := by
  constructor
  · intro h
    rw [hoursOf_some, dictGet_insertAll, h]
  · exact nodup_keys_hoursOf (some rows)

/-- C9 witness: two rows whose day labels both strip to Mon leave a
single entry holding the second row's hours text. -/
theorem C9_witness :
    dictGet "Mon" (hoursOf (some rowsDup)) = some "10-6" ∧
    ((hoursOf (some rowsDup)).map Prod.fst).Nodup := by
  have h : lastValueFor "Mon" (rowsDup.filterMap rowPair) = some "10-6" := by decide
  exact ⟨(C9_duplicate_day_last_wins rowsDup "Mon" "10-6").1 h,
    (C9_duplicate_day_last_wins rowsDup "Mon" "10-6").2⟩

/-- C10: every emitted record carries an hours mapping and a sorted
services list as such — empty rather than absent when the page has no
hours table or no desktop services container — while the other fields
are each optional. -/
theorem C10_hours_services_present (p : Page) (url : String) (rec : StoreRecord)
    (h : (parse_store_details (some p) url).1 = some rec) :
    rec.hours = hoursOf p.hoursTable ∧
    rec.services = pySorted (servicesRaw p.servicesDesktop) ∧
    (p.hoursTable = none → rec.hours = []) ∧
    (p.servicesDesktop = none → rec.services = []) ∧
    List.Sorted strLe rec.services := by
  obtain ⟨ht, hrec⟩ := parse_store_details_eq_some h
  subst hrec
  refine ⟨rfl, rfl, ?_, ?_, sorted_pySorted _⟩
  · intro hnone
    rw [hnone]
    rfl
  · intro hnone
    rw [hnone]
    rfl

/-- C10 witness: a page with only a name yields a record whose hours
mapping and services list are present and empty, while the optional
fields are absent. -/
theorem C10_witness :
    (parse_store_details (some pageNameOnly) "u").1 = some recNameOnly ∧
    recNameOnly.hours = [] ∧ recNameOnly.services = [] ∧
    recNameOnly.address_line_1 = none := by
  have h : (parse_store_details (some pageNameOnly) "u").1 = some recNameOnly := by decide
  refine ⟨h, ?_, ?_, by decide⟩
  · exact (C10_hours_services_present pageNameOnly "u" recNameOnly h).2.2.1 rfl
  · exact (C10_hours_services_present pageNameOnly "u" recNameOnly h).2.2.2.1 rfl

/-- C1 witness: the permit bracket holds on the failed-fetch trace
too. -/
theorem C1_witness :
    (scrape_with_semaphore_events false).head? = some Ev.acquire ∧
    (scrape_with_semaphore_events false).getLast? = some Ev.release :=
  ⟨(C1_permit_scope false).1, (C1_permit_scope false).2.1⟩

/-- C2 witness: a stripped non-empty `loc` text is a member of the
extracted list. -/
theorem C2_witness : "https://x/a" ∈ parse_sitemaps [fileA] :=
  (C2_extraction_membership [fileA] "https://x/a").mpr (by decide)

/-- C4 witness: a concrete outcome list is finalized into its sorted,
`None`-free form. -/
theorem C4_witness :
    List.Sorted nameLe (finalize [some recDeli, none, some recNameOnly]) ∧
    finalize [some recDeli, none, some recNameOnly] = [recNameOnly, recDeli] :=
  ⟨(C4_final_output_sorted [some recDeli, none, some recNameOnly]).1, by decide⟩
